import Mathlib

/- Verification of the core logic of the gaiagps command-line client
   (gaiagps/shell.py and gaiagps/util.py): selector resolution with the
   bulk-safety guard, folder tree building and resolution, date-range
   parsing and date filtering, identifier classification, and the
   bulk-edit apply loop with its schema and optimistic-concurrency
   checks.  Python dicts are modelled as insertion-ordered association
   lists, Python exceptions as explicit error results. -/

namespace GaiaSpec

/-- Association-list lookup, first match wins (a Python dict read). -/
def aget {α : Type} : List (String × α) → String → Option α
  | [], _ => none
  | (k, v) :: rest, key => if k = key then some v else aget rest key

/-- Association-list store: replace in place when the key is present,
append otherwise (a Python dict write; insertion order is preserved). -/
def aset {α : Type} : List (String × α) → String → α → List (String × α)
  | [], key, v => [(key, v)]
  | (k, v) :: rest, key, v' =>
    if k = key then (k, v') :: rest else (k, v) :: aset rest key v'

theorem aget_aset_self {α : Type} (m : List (String × α)) (k : String) (v : α) :
    aget (aset m k v) k = some v := by
  induction m with
  | nil => simp [aget, aset]
  | cons p rest ih =>
    obtain ⟨k', v'⟩ := p
    by_cases h : k' = k <;> simp [aget, aset, h, ih]

theorem aget_aset_ne {α : Type} (m : List (String × α)) (k k' : String) (v : α)
    (h : k' ≠ k) : aget (aset m k v) k' = aget m k' := by
  induction m with
  | nil =>
    simp only [aset, aget]
    exact if_neg (fun hh => h hh.symm)
  | cons p rest ih =>
    obtain ⟨k0, v0⟩ := p
    by_cases h0 : k0 = k
    · have hne : ¬ (k0 = k') := fun hh => h (hh.symm.trans h0)
      simp only [aset, if_pos h0, aget, if_neg hne]
    · simp only [aset, if_neg h0, aget]
      by_cases h1 : k0 = k'
      · simp [if_pos h1]
      · simp [if_neg h1, ih]

theorem mem_aset {α : Type} {m : List (String × α)} {k : String} {v : α}
    {q : String × α} (h : q ∈ aset m k v) : q = (k, v) ∨ q ∈ m := by
  induction m with
  | nil => simp [aset] at h; simp [h]
  | cons p rest ih =>
    obtain ⟨k0, v0⟩ := p
    by_cases h0 : k0 = k
    · simp only [aset, if_pos h0, List.mem_cons] at h
      rcases h with h1 | h1
      · left; rw [h1, h0]
      · right; exact List.mem_cons_of_mem _ h1
    · simp only [aset, if_neg h0, List.mem_cons] at h
      rcases h with h1 | h1
      · right; exact h1 ▸ List.mem_cons_self _ _
      · rcases ih h1 with h2 | h2
        · left; exact h2
        · right; exact List.mem_cons_of_mem _ h2

theorem aset_keys_nodup {α : Type} (m : List (String × α)) (k : String) (v : α)
    (h : (m.map Prod.fst).Nodup) : ((aset m k v).map Prod.fst).Nodup := by
  induction m with
  | nil => simp [aset]
  | cons p rest ih =>
    obtain ⟨k0, v0⟩ := p
    simp only [List.map_cons, List.nodup_cons] at h
    by_cases h0 : k0 = k
    · simp only [aset, if_pos h0, List.map_cons, List.nodup_cons]
      exact ⟨h.1, h.2⟩
    · simp only [aset, if_neg h0, List.map_cons, List.nodup_cons]
      refine ⟨?_, ih h.2⟩
      intro hmem
      rcases List.mem_map.1 hmem with ⟨q, hq, hfst⟩
      rcases mem_aset hq with rfl | h'
      · exact h0 hfst.symm
      · exact h.1 (List.mem_map.2 ⟨q, h', hfst⟩)

/-- A YAML/JSON-style value as handled by the Python code: a scalar, a
mapping (dict) or a sequence (list).  Scalars are kept opaque as
strings; the modelled code only ever compares them for equality. -/
inductive Val : Type where
  | prim (s : String)
  | dict (d : List (String × Val))
  | list (l : List Val)

/-- A Python dict whose keys are strings. -/
abbrev Dict := List (String × Val)

mutual

/-- Structural equality of values (Python equality on these shapes). -/
def Val.beq : Val → Val → Bool
  | .prim a, .prim b => a == b
  | .dict a, .dict b => beqDict a b
  | .list a, .list b => beqSeq a b
  | _, _ => false

def beqDict : List (String × Val) → List (String × Val) → Bool
  | [], [] => true
  | (k1, v1) :: r1, (k2, v2) :: r2 => k1 == k2 && Val.beq v1 v2 && beqDict r1 r2
  | _, _ => false

def beqSeq : List Val → List Val → Bool
  | [], [] => true
  | a :: r1, b :: r2 => Val.beq a b && beqSeq r1 r2
  | _, _ => false

end

instance : BEq Val := ⟨Val.beq⟩

/-- Python exceptions arising on the modelled code paths. -/
inductive PyErr : Type where
  | keyError
  | typeError
  | attrError
  | valueError
deriving DecidableEq

/-- Python subscripting v[key] with a string key: KeyError on a missing
mapping key, TypeError when v is not a mapping. -/
def subscr : Val → String → Except PyErr Val
  | .dict d, key =>
    match aget d key with
    | some v => .ok v
    | none => .error .keyError
  | _, _ => .error .typeError

/-- Python v.get(key) on a mapping; AttributeError when v is not a
mapping. -/
def pyGet : Val → String → Except PyErr (Option Val)
  | .dict d, key => .ok (aget d key)
  | _, _ => .error .attrError

/-- Python truthiness of the value shapes we model. -/
def truthy : Val → Bool
  | .prim s => !(s == "")
  | .dict d => !d.isEmpty
  | .list l => !l.isEmpty

/-- string.hexdigits from the Python standard library. -/
def hexdigits : List Char := "0123456789abcdefABCDEF".toList

/-- util.is_id: a string is (likely) an API identifier when it is 36 or
32 characters long and made only of hexadecimal digits and hyphens. -/
def is_id (idstr : String) : Bool :=
  (idstr.length == 36 || idstr.length == 32) &&
    idstr.toList.all (fun c => (hexdigits ++ ['-']).contains c)

@[simp]
theorem except_bind_ok {ε α β : Type} (a : α) (f : α → Except ε β) :
    (Except.ok a : Except ε α) >>= f = f a := rfl

@[simp]
theorem except_bind_err {ε α β : Type} (e : ε) (f : α → Except ε β) :
    (Except.error e : Except ε α) >>= f = .error e := rfl

/-- Days since 1970-01-01 of a proleptic-Gregorian calendar date
(Hinnant's civil-days algorithm), the arithmetic behind datetime. -/
def daysFromCivil (y m d : Int) : Int :=
  let y' := if m ≤ 2 then y - 1 else y
  let era := (if 0 ≤ y' then y' else y' - 399) / 400
  let yoe := y' - era * 400
  let doy := (153 * ((m + 9) % 12) + 2) / 5 + d - 1
  let doe := yoe * 365 + yoe / 4 - yoe / 100 + doy
  era * 146097 + doe - 719468

def isLeap (y : Int) : Bool := y % 4 == 0 && (y % 100 != 0 || y % 400 == 0)

def daysInMonth (y m : Int) : Int :=
  if m == 2 then (if isLeap y then 29 else 28)
  else if m == 4 || m == 6 || m == 9 || m == 11 then 30
  else 31

/-- Validity of a calendar date as enforced by datetime construction. -/
def validYMD (y m d : Int) : Bool :=
  decide (1 ≤ y ∧ y ≤ 9999 ∧ 1 ≤ m ∧ m ≤ 12 ∧ 1 ≤ d ∧ d ≤ daysInMonth y m)

/-- Greedily take up to n leading decimal digits. -/
def takeDigits : Nat → List Char → List Char × List Char
  | 0, cs => ([], cs)
  | _, [] => ([], [])
  | n + 1, c :: cs =>
    if c.isDigit then
      let (ds, rest) := takeDigits n cs
      (c :: ds, rest)
    else ([], c :: cs)

def digitsToNat (ds : List Char) : Nat :=
  ds.foldl (fun a c => a * 10 + (c.toNat - 48)) 0

/-- Parse an up-to-n-digit number (at least one digit), strptime style. -/
def parseNum (n : Nat) (cs : List Char) : Option (Nat × List Char) :=
  match takeDigits n cs with
  | ([], _) => none
  | (ds, rest) => some (digitsToNat ds, rest)

/-- Parse a fractional-seconds field (%f): one to six digits, scaled to
microseconds. -/
def parseFrac (cs : List Char) : Option (Nat × List Char) :=
  match takeDigits 6 cs with
  | ([], _) => none
  | (ds, rest) => some (digitsToNat ds * 10 ^ (6 - ds.length), rest)

def expectChar (c : Char) : List Char → Option (List Char)
  | [] => none
  | x :: xs => if x = c then some xs else none

/-- Fields matched by the %Y-%m-%dT%H:%M:%S part of a timestamp. -/
structure TStamp where
  y : Nat
  mo : Nat
  d : Nat
  h : Nat
  mi : Nat
  s : Nat
deriving DecidableEq

def parseBase (cs : List Char) : Option (TStamp × List Char) := do
  let (y, cs) ← parseNum 4 cs
  let cs ← expectChar '-' cs
  let (mo, cs) ← parseNum 2 cs
  let cs ← expectChar '-' cs
  let (d, cs) ← parseNum 2 cs
  let cs ← expectChar 'T' cs
  let (h, cs) ← parseNum 2 cs
  let cs ← expectChar ':' cs
  let (mi, cs) ← parseNum 2 cs
  let cs ← expectChar ':' cs
  let (s, cs) ← parseNum 2 cs
  pure (⟨y, mo, d, h, mi, s⟩, cs)

/-- Range validation performed when strptime constructs the datetime. -/
def validStamp (t : TStamp) : Bool :=
  validYMD t.y t.mo t.d && decide (t.h ≤ 23 ∧ t.mi ≤ 59 ∧ t.s ≤ 59)

/-- A naive datetime value: seconds since the epoch plus microseconds. -/
structure DT where
  sec : Int
  usec : Nat
deriving DecidableEq

def TStamp.toDT (t : TStamp) (usec : Nat) : DT :=
  ⟨daysFromCivil t.y t.mo t.d * 86400 + t.h * 3600 + t.mi * 60 + t.s, usec⟩

/-- The three timestamp formats used by util.date_parse. -/
inductive Fmt where
  | ymdhmsZ
  | ymdhmsF
  | ymdhms
deriving DecidableEq

/-- datetime.strptime for the formats of util.date_parse: a failed
match, leftover input or an out-of-range field is a ValueError. -/
def strptime (s : String) (fmt : Fmt) : Except PyErr DT :=
  match parseBase s.toList with
  | none => .error .valueError
  | some (t, rest) =>
    if !validStamp t then .error .valueError
    else
      match fmt, rest with
      | .ymdhms, [] => .ok (t.toDT 0)
      | .ymdhmsZ, cs =>
        match expectChar 'Z' cs with
        | some [] => .ok (t.toDT 0)
        | _ => .error .valueError
      | .ymdhmsF, cs =>
        match expectChar '.' cs with
        | some cs2 =>
          match parseFrac cs2 with
          | some (f, []) => .ok (t.toDT f)
          | _ => .error .valueError
        | none => .error .valueError
      | _, _ => .error .valueError

/-- The thing['properties'].get('time_created') fallback inside
util.date_parse, with its Python exception behavior. -/
def fallbackTC (thing : Dict) : Except PyErr (Option Val) := do
  let props ← subscr (.dict thing) "properties"
  pyGet props "time_created"

/-- util.date_parse: read a datestamp from the object's top-level
time_created or its properties, branch on the presence of a Z marker or
a dot, parse, and localize.  The pytz/tzlocal conversion to the local
timezone is modelled as adding the local offset tzoff (seconds). -/
def date_parse (tzoff : Int) (thing : Dict) : Except PyErr (Option DT) := do
  let ds? ← match aget thing "time_created" with
    | some v => if truthy v then pure (some v) else fallbackTC thing
    | none => fallbackTC thing
  match ds? with
  | none => pure none
  | some v =>
    if !truthy v then pure none
    else
      match v with
      | .prim s => do
        let dt ← if s.toList.contains 'Z' then strptime s .ymdhmsZ
                 else if s.toList.contains '.' then strptime s .ymdhmsF
                 else strptime s .ymdhms
        pure (some ⟨dt.sec + tzoff, dt.usec⟩)
      | _ => .error .typeError

/-- Naive datetime comparison (lexicographic on seconds then micro). -/
def dtLe (a b : DT) : Bool :=
  decide (a.sec < b.sec ∨ (a.sec = b.sec ∧ a.usec ≤ b.usec))

/-- Command._match_date: objects lacking a timestamp never match; the
parsed local timestamp must lie in the inclusive range. -/
def match_date (tzoff : Int) (r : DT × DT) (item : Dict) : Except PyErr Bool := do
  match ← date_parse tzoff item with
  | some dt => pure (dtLe r.1 dt && dtLe dt r.2)
  | none => pure false

/-- The date filter applied by Command.find_objects. -/
def filterDate (tzoff : Int) (r : DT × DT) : List Dict → Except PyErr (List Dict)
  | [] => .ok []
  | x :: xs => do
    let b ← match_date tzoff r x
    let rest ← filterDate tzoff r xs
    pure (if b then x :: rest else rest)

/-- Errors surfaced by Command.find_objects: the bulk-safety abort
(the _Safety exception), a missed exact lookup, or a Python exception
escaping from date filtering. -/
inductive FindErr where
  | safety
  | notFound
  | pyErr (e : PyErr)
deriving DecidableEq

/-- Modelled from the spec: apiclient.find is not under src/ (only its
caller Command.find_objects is).  Spec section 4.1: an exact selector is
resolved by exact lookup on the given field and fails with NotFound when
nothing matches.  We return the first object whose field equals the
value. -/
def apifind (objs : List Dict) (field v : String) : Except FindErr Dict :=
  match objs.filter (fun o => aget o field == some (.prim v)) with
  | [] => .error .notFound
  | x :: _ => .ok x

/-- Modelled from the spec: apiclient.match is not under src/.  Spec
section 4.1: a pattern selector is treated as a regular expression and
matched against every object's title, contributing zero or more
results.  The regular-expression engine is abstracted as rmatch. -/
def apimatch (objs : List Dict) (rmatch : String → String → Bool)
    (field pat : String) : List Dict :=
  objs.filter (fun o =>
    match aget o field with
    | some (.prim s) => rmatch pat s
    | _ => false)

/-- How a selector is resolved in Command.find_objects. -/
inductive Lookup where
  | byId
  | byPat
  | byTitle
deriving DecidableEq

def selKind (m : Bool) (s : String) : Lookup :=
  if is_id s then .byId else if m then .byPat else .byTitle

/-- The objects contributed by one selector of Command.find_objects
(lines 261-268): exact id lookup for an identifier, pattern matching
when match is set, exact title lookup otherwise. -/
def selStep (objs : List Dict) (rmatch : String → String → Bool) (m : Bool)
    (s : String) : Except FindErr (List Dict) :=
  if is_id s then
    match apifind objs "id" s with
    | .error e => .error e
    | .ok o => .ok [o]
  else if m then .ok (apimatch objs rmatch "title" s)
  else
    match apifind objs "title" s with
    | .error e => .error e
    | .ok o => .ok [o]

/-- The selector loop of Command.find_objects, paired with the record
of how each processed selector was resolved. -/
def selLoop (objs : List Dict) (rmatch : String → String → Bool) (m : Bool) :
    List String → List (String × Lookup) × Except FindErr (List Dict)
  | [] => ([], .ok [])
  | s :: rest =>
    match selStep objs rmatch m s with
    | .error e => ([(s, selKind m s)], .error e)
    | .ok found =>
      match selLoop objs rmatch m rest with
      | (tr, .error e) => ((s, selKind m s) :: tr, .error e)
      | (tr, .ok l) => ((s, selKind m s) :: tr, .ok (found ++ l))

/-- The tail of Command.find_objects after the selector loop: apply
the optional date filter, then refuse to return the full unfiltered
list when no selector was given (lines 272-280). -/
def findRest (objs : List Dict) (tzoff : Int) (selsEmpty : Bool)
    (dr : Option (DT × DT)) (matched : Except FindErr (List Dict)) :
    Except FindErr (List Dict) :=
  match matched with
  | .error e => .error e
  | .ok ms =>
    match (match dr with
           | some r => filterDate tzoff r ms
           | none => .ok ms : Except PyErr (List Dict)) with
    | .error e => .error (.pyErr e)
    | .ok ms' =>
      if selsEmpty && (ms'.length == objs.length) then .error .safety
      else .ok ms'

/-- Command.find_objects: resolve selectors (or take the whole list),
apply the optional date filter, and refuse to return the full
unfiltered list when no selector was given.  The first component
records how each selector was resolved. -/
def find_objects (objs : List Dict) (rmatch : String → String → Bool)
    (tzoff : Int) (sels : List String) (m : Bool) (dr : Option (DT × DT)) :
    List (String × Lookup) × Except FindErr (List Dict) :=
  let pre :=
    if sels.isEmpty then ([], .ok objs)
    else selLoop objs rmatch m sels
  (pre.1, findRest objs tzoff sels.isEmpty dr pre.2)

/-- A folder descriptor as consumed by util.make_tree. -/
structure Folder where
  id : String
  parent : Option String
deriving DecidableEq

/-- The containment state produced by util.make_tree, in the explicit
index style of spec section 9: the synthetic root's subfolder map, and
each folder's subfolder map keyed by folder id (absent until the code's
setdefault materializes it).  An entry maps a child id to the child it
references. -/
structure TState where
  rootSub : List (String × String)
  folderSub : List (String × List (String × String))
deriving DecidableEq

/-- The parent a folder is attached to by the code: folder.get('parent')
is truthy exactly when it is present, non-null and non-empty. -/
def parentCode (f : Folder) : Option String :=
  match f.parent with
  | some p => if p = "" then none else some p
  | none => none

/-- parent.setdefault('subfolders', {}); parent['subfolders'][id] = folder. -/
def addChild (st : TState) (p? : Option String) (cid : String) : TState :=
  match p? with
  | none => { st with rootSub := aset st.rootSub cid cid }
  | some p =>
    let m := aset ((aget st.folderSub p).getD []) cid cid
    { st with folderSub := aset st.folderSub p m }

/-- The loop of util.make_tree; folders_by_id[folder['parent']] raises
KeyError when the parent id is unknown. -/
def makeTreeGo (byId : List (String × Folder)) :
    List Folder → TState → Except PyErr TState
  | [], st => .ok st
  | f :: rest, st =>
    match parentCode f with
    | some p =>
      match aget byId p with
      | none => .error .keyError
      | some _ => makeTreeGo byId rest (addChild st (some p) f.id)
    | none => makeTreeGo byId rest (addChild st none f.id)

/-- util.make_tree: index the folders by id, then hang every folder
under its parent (or the synthetic root). -/
def make_tree (folders : List Folder) : Except PyErr TState :=
  makeTreeGo (folders.foldl (fun m f => aset m f.id f) []) folders ⟨[], []⟩

/-- The subfolder map of a node of the built tree: none is the
synthetic root, some p the folder with id p. -/
def nodeMap (st : TState) : Option String → List (String × String)
  | none => st.rootSub
  | some p => (aget st.folderSub p).getD []

/-- The parent as claim C6 words it: the folder named by the parent
field, or the root exactly when parent is absent or null. -/
def parentSpec (f : Folder) : Option String := f.parent

/-- Claim C6's conclusion, evaluated on a folder list: every folder
appears in its claimed parent's subfolder map keyed by its id, and in no
other node's map. -/
def claimC6holds (folders : List Folder) : Bool :=
  match make_tree folders with
  | .error _ => false
  | .ok st =>
    folders.all fun f =>
      (aget (nodeMap st (parentSpec f)) f.id == some f.id) &&
      (folders.all fun g =>
        ((some g.id : Option String) == parentSpec f) ||
          (aget (nodeMap st (some g.id)) f.id == none)) &&
      (((none : Option String) == parentSpec f) ||
        (aget st.rootSub f.id == none))

/-- The non-root branch of util.resolve_tree (lines 218-224): clear the
node, copy in the fetched representation, then re-attach the subfolder
map saved from the old node (defaulting to an empty map). -/
def resolveNodeFields (updated folder : Dict) : Dict :=
  aset updated "subfolders" ((aget folder "subfolders").getD (.dict []))

/-- One entry of the editable-field schema: True in the Python dict
(whole field editable, but skipped by the apply loop) or a list of
editable nested keys. -/
inductive ESpec where
  | whole
  | subset (ks : List String)
deriving DecidableEq

/-- The editable schema fixed in Command.edit (shell.py lines 732-737). -/
def editableSchema : List (String × ESpec) :=
  [("id", .whole),
   ("properties", .subset ["icon", "notes", "public", "title", "revision"])]

/-- Lookup w['properties']['revision'] with Python exception behavior. -/
def revGet (w : Val) : Except PyErr Val := do
  let p ← subscr w "properties"
  subscr p "revision"

/-- The rev_match closure in Waypoint._load_for_edit: equality of the
two revision tokens, with any KeyError turned into False. -/
def rev_match (w1 w2 : Val) : Except PyErr Bool :=
  match revGet w1 with
  | .error .keyError => .ok false
  | .error e => .error e
  | .ok r1 =>
    match revGet w2 with
    | .error .keyError => .ok false
    | .error e => .error e
    | .ok r2 => .ok (Val.beq r1 r2)

/-- editable_object.get('properties', {}).get('revision'), evaluated
eagerly as the argument of the diagnostic log line. -/
def localRevGet (r : Val) : Except PyErr (Option Val) :=
  match r with
  | .dict rd =>
    match aget rd "properties" with
    | some (.dict pd) => .ok (aget pd "revision")
    | some _ => .error .attrError
    | none => .ok none
  | _ => .error .attrError

/-- Lookup w['properties']['title'], used by every diagnostic and
report message of the apply loop. -/
def titleGet (w : Dict) : Except PyErr Val := do
  let p ← subscr (.dict w) "properties"
  subscr p "title"

/-- The in-place write wpt[top_key][key] = val. -/
def setNested (w : Dict) (tk k : String) (v : Val) : Except PyErr Dict :=
  match aget w tk with
  | none => .error .keyError
  | some (.dict inner) => .ok (aset w tk (.dict (aset inner k v)))
  | some _ => .error .typeError

/-- Failure modes of Waypoint._load_for_edit.  badShape, badCount,
invalidKey and invalidSubKey are the SchemaViolations; serverRejected is
a rejected write; pyErr is an uncaught Python exception. -/
inductive LoadErr where
  | badShape
  | badCount (got expected : Nat)
  | invalidKey (k : String)
  | invalidSubKey (tk k : String)
  | serverRejected (i : Nat)
  | pyErr (e : PyErr)
deriving DecidableEq

/-- The inner schema loop over one mapping-typed editable field: every
nested key must be declared, and each declared one is written into the
fetched item. -/
def applySubkeys (tk : String) (ks : List String) :
    Dict → List (String × Val) → Except LoadErr Dict
  | wpt, [] => .ok wpt
  | wpt, (k, v) :: rest =>
    if ks.contains k then
      match setNested wpt tk k v with
      | .error e => .error (.pyErr e)
      | .ok w' => applySubkeys tk ks w' rest
    else .error (.invalidSubKey tk k)

/-- The schema-enforcement loop over a snapshot record's top-level keys
(shell.py lines 682-693): undeclared keys are fatal, non-list schema
entries are skipped, and list entries have their nested keys validated
and applied. -/
def applySchema (ed : List (String × ESpec)) :
    Dict → List (String × Val) → Except LoadErr Dict
  | wpt, [] => .ok wpt
  | wpt, (tk, v) :: rest =>
    match aget ed tk with
    | none => .error (.invalidKey tk)
    | some .whole => applySchema ed wpt rest
    | some (.subset ks) =>
      match v with
      | .dict items =>
        match applySubkeys tk ks wpt items with
        | .error e => .error e
        | .ok w' => applySchema ed w' rest
      | _ => .error (.pyErr .attrError)

/-- Per-item diagnostics printed by the apply loop, recorded with the
position number and title actually printed. -/
inductive Diag where
  | revConflict (pos : Nat) (title : Val)
  | idMismatch (pos : Nat) (title : Val)

/-- Observable effects of one run of the apply loop: ids fetched from
the server, objects passed to put_object, positions reported as
updated, and per-item skip diagnostics. -/
structure Trace where
  fetches : List Val
  puts : List Dict
  updated : List Nat
  skipped : List Diag

def Trace.init : Trace := ⟨[], [], [], []⟩

/-- The external API client: get_object by id (its result at the moment
of the fetch) and put_object acceptance. -/
structure Client where
  server : Val → Dict
  accept : Dict → Bool

/-- One iteration of the apply loop of Waypoint._load_for_edit for the
original item w and snapshot record r at position i: fetch the item
fresh, run the concurrency and identity checks (skipping on mismatch),
enforce the schema, write the valid fields and persist.  Returns the
updated trace and, when the loop aborts, the error. -/
def processItem (c : Client) (ed : List (String × ESpec)) (w : Dict)
    (r : Val) (i : Nat) (tr : Trace) : Trace × Option LoadErr :=
  match aget w "id" with
  | none => (tr, some (.pyErr .keyError))
  | some wid =>
    let wpt := c.server wid
    let tr1 := { tr with fetches := tr.fetches ++ [wid] }
    match rev_match (.dict wpt) r with
    | .error e => (tr1, some (.pyErr e))
    | .ok false =>
      match revGet (.dict wpt) with
      | .error e => (tr1, some (.pyErr e))
      | .ok _ =>
        match localRevGet r with
        | .error e => (tr1, some (.pyErr e))
        | .ok _ =>
          match titleGet wpt with
          | .error e => (tr1, some (.pyErr e))
          | .ok t =>
            ({ tr1 with skipped := tr1.skipped ++ [.revConflict (i + 1) t] },
             none)
    | .ok true =>
      match aget wpt "id" with
      | none => (tr1, some (.pyErr .keyError))
      | some sid =>
        match pyGet r "id" with
        | .error e => (tr1, some (.pyErr e))
        | .ok rid =>
          if (match rid with | some x => Val.beq sid x | none => false) then
            match r with
            | .dict rd =>
              match applySchema ed wpt rd with
              | .error e => (tr1, some e)
              | .ok wpt' =>
                let tr2 := { tr1 with puts := tr1.puts ++ [wpt'] }
                if c.accept wpt' then
                  match titleGet wpt' with
                  | .error e => (tr2, some (.pyErr e))
                  | .ok _ =>
                    ({ tr2 with updated := tr2.updated ++ [i] }, none)
                else
                  match titleGet wpt' with
                  | .error e => (tr2, some (.pyErr e))
                  | .ok _ => (tr2, some (.serverRejected i))
            | _ =>
              -- unreachable: rev_match returned true, so r is a mapping
              (tr1, some (.pyErr .typeError))
          else
            match titleGet wpt with
            | .error e => (tr1, some (.pyErr e))
            | .ok t =>
              ({ tr1 with skipped := tr1.skipped ++ [.idMismatch i t] }, none)

/-- The apply loop over the originally-selected items and the snapshot
records in positional correspondence. -/
def runApply (c : Client) (ed : List (String × ESpec)) :
    List Dict → List Val → Nat → Trace → Trace × Except LoadErr Unit
  | w :: ws, r :: rs, i, tr =>
    match processItem c ed w r i tr with
    | (tr', none) => runApply c ed ws rs (i + 1) tr'
    | (tr', some e) => (tr', .error e)
  | _, _, _, tr => (tr, .ok ())

/-- Waypoint._load_for_edit: the loaded snapshot must be a list of the
same length as the original selection (else a fatal SchemaViolation
before any fetch or write), then the apply loop runs with the fixed
editable schema. -/
def load_for_edit (c : Client) (wpts : List Dict) (snapshot : Val) :
    Trace × Except LoadErr Unit :=
  match snapshot with
  | .list objs =>
    if objs.length ≠ wpts.length then
      (Trace.init, .error (.badCount objs.length wpts.length))
    else runApply c editableSchema wpts objs 0 Trace.init
  | _ => (Trace.init, .error .badShape)

/-- C4: when the loaded snapshot is not a sequence, or is a sequence
whose length differs from the number of originally-selected items, the
apply aborts with a fatal SchemaViolation (badShape or badCount) with
the empty trace: zero items fetched, zero writes issued. -/
theorem c4_shape_abort (c : Client) (wpts : List Dict) (v : Val) :
    ((∀ l, v ≠ Val.list l) →
      load_for_edit c wpts v = (Trace.init, .error .badShape)) ∧
    (∀ l, v = Val.list l → l.length ≠ wpts.length →
      load_for_edit c wpts v =
        (Trace.init, .error (.badCount l.length wpts.length))) := by
  constructor
  · intro h
    cases v with
    | prim s => rfl
    | dict d => rfl
    | list l => exact absurd rfl (h l)
  · intro l hv hlen
    subst hv
    simp [load_for_edit, hlen]

theorem c4_shape_abort_witness :
    load_for_edit ⟨fun _ => [], fun _ => true⟩ [] (Val.prim "x") =
      (Trace.init, .error .badShape) ∧
    load_for_edit ⟨fun _ => [], fun _ => true⟩ [[("id", Val.prim "a")]]
        (Val.list []) =
      (Trace.init, .error (.badCount 0 1)) := by
  refine ⟨(c4_shape_abort _ _ _).1 ?_, (c4_shape_abort _ _ _).2 [] rfl ?_⟩
  · intro l h
    cases h
  · decide

/-- C9: on an empty collection with no selectors and no date filter,
find_objects still raises the safety abort rather than returning an
empty result, because the empty candidate set equals the full (empty)
unfiltered list. -/
theorem c9_empty_collection_safety (rmatch : String → String → Bool)
    (tzoff : Int) (m : Bool) :
    (find_objects [] rmatch tzoff [] m none).2 = .error .safety := rfl

/-- C10: util.date_parse is partial.  A timestamp carrying both a
fractional-seconds part and a trailing Z takes the Z branch and
strptime raises ValueError instead of returning None or a datetime; an
object with no top-level time_created and no properties key raises
KeyError; consequently date filtering inside find_objects crashes on
such an object instead of treating it as non-matching. -/
theorem c10_date_parse_partial :
    (∀ tzoff : Int,
      date_parse tzoff
        [("id", Val.prim "1234"), ("title", Val.prim "Foo"),
         ("time_created", Val.prim "2019-01-01T10:11:12.5Z")] =
        .error .valueError) ∧
    (∀ tzoff : Int,
      date_parse tzoff [("id", Val.prim "1234"), ("title", Val.prim "Foo")] =
        .error .keyError) ∧
    (∀ (tzoff : Int) (r : DT × DT),
      (find_objects
          [[("id", Val.prim "1234"), ("title", Val.prim "Foo"),
            ("time_created", Val.prim "2019-01-01T10:11:12.5Z")]]
          (fun _ _ => false) tzoff [] false (some r)).2 =
        .error (.pyErr .valueError)) :=
  ⟨fun _ => rfl, fun _ => rfl, fun _ _ => rfl⟩

/-- C5: after the non-root resolve step replaces a tree node's fields
with the fetched representation, the subfolders key still maps to
exactly the subfolder map the node held before (the already-linked
children survive), and every other key has the fetched value. -/
theorem c5_resolve_frame (updated folder : Dict) :
    aget (resolveNodeFields updated folder) "subfolders" =
      some ((aget folder "subfolders").getD (.dict [])) ∧
    (∀ s, aget folder "subfolders" = some s →
      aget (resolveNodeFields updated folder) "subfolders" = some s) ∧
    (∀ k, k ≠ "subfolders" →
      aget (resolveNodeFields updated folder) k = aget updated k) := by
  refine ⟨aget_aset_self _ _ _, ?_, ?_⟩
  · intro s hs
    simp [resolveNodeFields, hs, aget_aset_self]
  · intro k hk
    exact aget_aset_ne _ _ _ _ hk

theorem c5_resolve_frame_witness :
    aget (resolveNodeFields
        [("id", Val.prim "f1"), ("title", Val.prim "New")]
        [("id", Val.prim "f1"),
         ("subfolders", Val.dict [("c", Val.dict [])])]) "subfolders" =
      some (Val.dict [("c", Val.dict [])]) ∧
    aget (resolveNodeFields
        [("id", Val.prim "f1"), ("title", Val.prim "New")]
        [("id", Val.prim "f1"),
         ("subfolders", Val.dict [("c", Val.dict [])])]) "title" =
      some (Val.prim "New") := by
  constructor
  · exact (c5_resolve_frame _ _).2.1 (Val.dict [("c", Val.dict [])]) rfl
  · rw [(c5_resolve_frame _ _).2.2 "title" (by decide)]
    rfl

theorem apifind_err {objs : List Dict} {f v : String} {e : FindErr}
    (h : apifind objs f v = .error e) : e = .notFound := by
  unfold apifind at h
  cases hf : objs.filter (fun o => aget o f == some (.prim v)) with
  | nil =>
    rw [hf] at h
    cases h
    rfl
  | cons x xs =>
    rw [hf] at h
    cases h

theorem selStep_err {objs : List Dict} {rmatch : String → String → Bool}
    {m : Bool} {s : String} {e : FindErr}
    (h : selStep objs rmatch m s = .error e) : e = .notFound := by
  unfold selStep at h
  by_cases hid : is_id s = true
  · rw [if_pos hid] at h
    cases ha : apifind objs "id" s with
    | error e' =>
      rw [ha] at h
      cases h
      exact apifind_err ha
    | ok o =>
      rw [ha] at h
      cases h
  · rw [if_neg hid] at h
    by_cases hm : m = true
    · rw [if_pos hm] at h
      cases h
    · rw [if_neg hm] at h
      cases ha : apifind objs "title" s with
      | error e' =>
        rw [ha] at h
        cases h
        exact apifind_err ha
      | ok o =>
        rw [ha] at h
        cases h

theorem selLoop_not_safety (objs : List Dict) (rmatch : String → String → Bool)
    (m : Bool) (sels : List String) :
    (selLoop objs rmatch m sels).2 ≠ .error .safety := by
  induction sels with
  | nil => simp [selLoop]
  | cons s rest ih =>
    cases hstep : selStep objs rmatch m s with
    | error e =>
      have he := selStep_err hstep
      subst he
      simp only [selLoop, hstep]
      intro h
      cases h
    | ok found =>
      rcases hrec : selLoop objs rmatch m rest with ⟨tr, res⟩
      simp only [selLoop, hstep, hrec]
      cases res with
      | error e =>
        intro h
        cases h
        exact ih (by rw [hrec])
      | ok l =>
        intro h
        cases h

theorem selLoop_trace_ok (objs : List Dict) (rmatch : String → String → Bool)
    (m : Bool) (sels : List String) (l : List Dict)
    (h : (selLoop objs rmatch m sels).2 = .ok l) :
    (selLoop objs rmatch m sels).1 = sels.map (fun s => (s, selKind m s)) := by
  induction sels generalizing l with
  | nil => rfl
  | cons s rest ih =>
    cases hstep : selStep objs rmatch m s with
    | error e =>
      simp only [selLoop, hstep] at h
      cases h
    | ok found =>
      rcases hrec : selLoop objs rmatch m rest with ⟨tr, res⟩
      simp only [selLoop, hstep, hrec] at h ⊢
      cases res with
      | error e => cases h
      | ok l' =>
        simp only [List.map_cons, List.cons.injEq, true_and]
        have := ih l' (by rw [hrec])
        rw [hrec] at this
        exact this

/-- C3: with an empty selector list and no date filter, or a date
filter that removed nothing, find_objects fails with the safety abort;
with selectors given the safety abort is never raised; and with an
empty selector list but a date filter that strictly shrank the set, the
filtered objects are returned. -/
theorem c3_safety_abort (objs : List Dict) (rmatch : String → String → Bool)
    (tzoff : Int) (m : Bool) :
    ((find_objects objs rmatch tzoff [] m none).2 = .error .safety) ∧
    (∀ r l, filterDate tzoff r objs = .ok l → l.length = objs.length →
      (find_objects objs rmatch tzoff [] m (some r)).2 = .error .safety) ∧
    (∀ sels dr, sels ≠ [] →
      (find_objects objs rmatch tzoff sels m dr).2 ≠ .error .safety) ∧
    (∀ r l, filterDate tzoff r objs = .ok l → l.length < objs.length →
      (find_objects objs rmatch tzoff [] m (some r)).2 = .ok l) := by
  refine ⟨?_, ?_, ?_, ?_⟩
  · simp [find_objects, findRest]
  · intro r l hf hlen
    simp [find_objects, findRest, hf, hlen]
  · intro sels dr hsels
    have hne : sels.isEmpty = false := by
      cases sels with
      | nil => exact absurd rfl hsels
      | cons a as => rfl
    rcases hsel : selLoop objs rmatch m sels with ⟨tr, res⟩
    simp only [find_objects, hne, Bool.false_eq_true, if_false, hsel]
    cases res with
    | error e =>
      have hnsafe : e ≠ .safety := by
        intro he
        exact selLoop_not_safety objs rmatch m sels (by rw [hsel, he])
      simp only [findRest]
      intro h
      cases h
      exact hnsafe rfl
    | ok ms =>
      cases dr with
      | none => simp [findRest, hne]
      | some r =>
        cases hfd : filterDate tzoff r ms with
        | error e => simp [findRest, hfd]
        | ok ms' => simp [findRest, hfd, hne]
  · intro r l hf hlen
    have hbeq : (l.length == objs.length) = false := by
      simp [Nat.ne_of_lt hlen]
    simp [find_objects, findRest, hf, hbeq]

theorem c3_safety_abort_witness :
    (find_objects [[("id", Val.prim "001"), ("title", Val.prim "wpt1"),
        ("properties", Val.dict [])]] (fun _ _ => false) 0 [] false none).2 =
      .error .safety ∧
    (find_objects [[("id", Val.prim "001"), ("title", Val.prim "wpt1"),
        ("properties", Val.dict [])]] (fun _ _ => false) 0 ["wpt1"] false
        none).2 ≠ .error .safety ∧
    (find_objects [[("id", Val.prim "001"), ("title", Val.prim "wpt1"),
        ("properties", Val.dict [])]] (fun _ _ => false) 0 [] false
        (some (⟨0, 0⟩, ⟨0, 0⟩))).2 = .ok [] := by
  refine ⟨(c3_safety_abort _ _ _ _).1, ?_, ?_⟩
  · exact (c3_safety_abort _ _ _ _).2.2.1 ["wpt1"] none (by simp)
  · exact (c3_safety_abort _ _ _ _).2.2.2 (⟨0, 0⟩, ⟨0, 0⟩) [] rfl (by decide)

/-- C8: is_id accepts exactly the strings of length 32 or 36 made of
hexadecimal digits and hyphens, a selector is classified for id lookup
exactly when is_id accepts it, and a successful find_objects run
resolves each selector by the lookup kind of that classification. -/
theorem c8_is_id_classification :
    (∀ s : String, is_id s = true ↔
      ((s.length = 32 ∨ s.length = 36) ∧
        ∀ c ∈ s.toList, c ∈ hexdigits ∨ c = '-')) ∧
    (∀ (m : Bool) (s : String), selKind m s = .byId ↔ is_id s = true) ∧
    (∀ objs rmatch tzoff sels m dr l,
      (find_objects objs rmatch tzoff sels m dr).2 = .ok l →
      (find_objects objs rmatch tzoff sels m dr).1 =
        sels.map (fun s => (s, selKind m s))) := by
  refine ⟨?_, ?_, ?_⟩
  · intro s
    simp only [is_id, Bool.and_eq_true, Bool.or_eq_true, beq_iff_eq,
      List.all_eq_true, List.contains, List.elem_iff, List.mem_append,
      List.mem_singleton]
    constructor
    · rintro ⟨h1, h2⟩
      exact ⟨h1.symm, h2⟩
    · rintro ⟨h1, h2⟩
      exact ⟨h1.symm, h2⟩
  · intro m s
    constructor
    · intro h
      by_cases hid : is_id s
      · exact hid
      · by_cases hm : m
        · simp [selKind, hid, hm] at h
        · simp [selKind, hid, hm] at h
    · intro h
      simp [selKind, h]
  · intro objs rmatch tzoff sels m dr l h
    by_cases hse : sels.isEmpty = true
    · have hnil : sels = [] := List.isEmpty_iff.1 hse
      subst hnil
      simp [find_objects]
    · have hne : sels.isEmpty = false := by
        cases hb : sels.isEmpty
        · rfl
        · exact absurd hb hse
      rcases hsel : selLoop objs rmatch m sels with ⟨tr, res⟩
      cases res with
      | error e => simp [find_objects, findRest, hne, hsel] at h
      | ok ms =>
        have htr := selLoop_trace_ok objs rmatch m sels ms (by rw [hsel])
        rw [hsel] at htr
        simp only [find_objects, hne, Bool.false_eq_true, if_false, hsel]
        simpa using htr

theorem c8_is_id_classification_witness :
    is_id "7f2409fd-a821-42e8-a7a4-a8fb01373da4" = true ∧
    is_id "waypoint one" = false ∧
    (find_objects [[("id", Val.prim "001"), ("title", Val.prim "wpt1"),
        ("properties", Val.dict [])]] (fun _ _ => false) 0 ["wpt1"] false
        none).1 = [("wpt1", Lookup.byTitle)] := by
  refine ⟨?_, ?_, ?_⟩
  · exact (c8_is_id_classification.1 _).2 ⟨by decide, by decide⟩
  · cases hb : is_id "waypoint one"
    · rfl
    · have := (c8_is_id_classification.1 _).1 hb
      exact absurd this.1 (by decide)
  · have := c8_is_id_classification.2.2
      [[("id", Val.prim "001"), ("title", Val.prim "wpt1"),
        ("properties", Val.dict [])]] (fun _ _ => false) 0 ["wpt1"] false none
      [[("id", Val.prim "001"), ("title", Val.prim "wpt1"),
        ("properties", Val.dict [])]] rfl
    rw [this]
    rfl

/-- The hypothesis of claim C6: every non-null parent reference names a
folder present in the list. -/
def parentsNamed (folders : List Folder) : Bool :=
  folders.all fun f =>
    match f.parent with
    | some p => folders.any fun g => g.id == p
    | none => true

theorem nodeMap_addChild_same (st : TState) (p? : Option String) (cid : String) :
    nodeMap (addChild st p? cid) p? = aset (nodeMap st p?) cid cid := by
  cases p? with
  | none => rfl
  | some p =>
    simp only [addChild, nodeMap]
    rw [aget_aset_self]
    rfl

theorem nodeMap_addChild_other (st : TState) (p? q? : Option String)
    (cid : String) (h : q? ≠ p?) :
    nodeMap (addChild st p? cid) q? = nodeMap st q? := by
  cases p? with
  | none =>
    cases q? with
    | none => exact absurd rfl h
    | some q => rfl
  | some p =>
    cases q? with
    | none => rfl
    | some q =>
      have hq : q ≠ p := by
        intro he
        exact h (by rw [he])
      simp only [addChild, nodeMap]
      rw [aget_aset_ne _ _ _ _ hq]

theorem makeTreeGo_spec (byId : List (String × Folder)) (fs : List Folder)
    (st : TState)
    (h : ∀ f ∈ fs, ∀ p, parentCode f = some p → (aget byId p).isSome) :
    ∃ st', makeTreeGo byId fs st = .ok st' ∧
      (∀ n x, aget (nodeMap st' n) x =
        (if (∃ f ∈ fs, f.id = x ∧ parentCode f = n) then some x
         else aget (nodeMap st n) x)) ∧
      ((∀ n, ((nodeMap st n).map Prod.fst).Nodup) →
        ∀ n, ((nodeMap st' n).map Prod.fst).Nodup) := by
  induction fs generalizing st with
  | nil =>
    refine ⟨st, rfl, ?_, fun hnd => hnd⟩
    intro n x
    rw [if_neg]
    rintro ⟨f, hf, -⟩
    exact absurd hf (List.not_mem_nil f)
  | cons f rest ih =>
    have hstep : makeTreeGo byId (f :: rest) st =
        makeTreeGo byId rest (addChild st (parentCode f) f.id) := by
      cases hp : parentCode f with
      | none => simp [makeTreeGo, hp]
      | some p =>
        have hsome := h f (List.mem_cons_self f rest) p hp
        cases hby : aget byId p with
        | none => rw [hby] at hsome; cases hsome
        | some g => simp [makeTreeGo, hp, hby]
    obtain ⟨st', hgo, hchar, hnd⟩ :=
      ih (addChild st (parentCode f) f.id)
        (fun g hg p hp => h g (List.mem_cons_of_mem f hg) p hp)
    refine ⟨st', by rw [hstep, hgo], ?_, ?_⟩
    · intro n x
      rw [hchar n x]
      by_cases hrest : ∃ g ∈ rest, g.id = x ∧ parentCode g = n
      · obtain ⟨g, hgmem, hg⟩ := hrest
        rw [if_pos ⟨g, hgmem, hg⟩,
            if_pos ⟨g, List.mem_cons_of_mem f hgmem, hg⟩]
      · rw [if_neg hrest]
        by_cases hf : f.id = x ∧ parentCode f = n
        · rw [if_pos ⟨f, List.mem_cons_self f rest, hf⟩]
          rw [← hf.2, nodeMap_addChild_same, ← hf.1, aget_aset_self]
        · have hcond : ¬ ∃ g ∈ f :: rest, g.id = x ∧ parentCode g = n := by
            rintro ⟨g, hmem, hh⟩
            rcases List.mem_cons.1 hmem with rfl | hmem'
            · exact hf hh
            · exact hrest ⟨g, hmem', hh⟩
          rw [if_neg hcond]
          by_cases hn : n = parentCode f
          · rw [hn, nodeMap_addChild_same]
            have hx : ¬ (f.id = x) := fun he => hf ⟨he, hn.symm⟩
            exact aget_aset_ne _ _ _ _ (fun he => hx he.symm)
          · rw [nodeMap_addChild_other st _ _ _ hn]
    · intro hnd0
      refine hnd ?_
      intro n
      by_cases hn : n = parentCode f
      · rw [hn, nodeMap_addChild_same]
        exact aset_keys_nodup _ _ _ (hnd0 (parentCode f))
      · rw [nodeMap_addChild_other st _ _ _ hn]
        exact hnd0 n

theorem aget_aset_isSome {α : Type} (m : List (String × α)) (k k' : String)
    (v : α) (h : (aget m k').isSome) : (aget (aset m k v) k').isSome := by
  by_cases he : k' = k
  · subst he
    rw [aget_aset_self]
    rfl
  · rw [aget_aset_ne _ _ _ _ he]
    exact h

theorem aget_foldl_aset_isSome (fs : List Folder)
    (init : List (String × Folder)) (p : String)
    (h : p ∈ fs.map Folder.id ∨ (aget init p).isSome) :
    (aget (fs.foldl (fun m f => aset m f.id f) init) p).isSome := by
  induction fs generalizing init with
  | nil =>
    rcases h with h | h
    · exact absurd h (by simp)
    · exact h
  | cons f rest ih =>
    simp only [List.foldl_cons]
    rcases h with h | h
    · rcases (by simpa using h : p = f.id ∨ ∃ a ∈ rest, a.id = p) with
        he | ⟨a, ha, hap⟩
      · refine ih _ (Or.inr ?_)
        rw [he, aget_aset_self]
        rfl
      · exact ih _ (Or.inl (List.mem_map.2 ⟨a, ha, hap⟩))
    · exact ih _ (Or.inr (aget_aset_isSome _ _ _ _ h))

/-- C6 counterexample: the folder list with ids { empty string, B } and
B's parent the empty string satisfies the claim's hypothesis (every
non-null parent names a folder in the list), yet make_tree hangs B
under the synthetic root, not under the folder whose id is the empty
string: folder.get('parent') is falsy for the empty string, so the
claim as stated is false. -/
theorem c6_counterexample :
    parentsNamed [⟨"", none⟩, ⟨"B", some ""⟩] = true ∧
    claimC6holds [⟨"", none⟩, ⟨"B", some ""⟩] = false ∧
    make_tree [⟨"", none⟩, ⟨"B", some ""⟩] =
      .ok ⟨[("", ""), ("B", "B")], []⟩ :=
  ⟨rfl, rfl, rfl⟩

/-- C6 amended: for a folder list with distinct ids in which every
truthy (non-null, non-empty) parent reference names a folder in the
list, make_tree succeeds and every folder appears exactly once, keyed
by its id, in the subfolder map of its parent — the folder named by its
parent field when that is truthy, the synthetic root when the parent is
absent, null, or the empty string — and in no other node's map. -/
theorem c6_tree_parent (folders : List Folder)
    (hnd : (folders.map Folder.id).Nodup)
    (hcl : ∀ f ∈ folders, ∀ p, parentCode f = some p →
      p ∈ folders.map Folder.id) :
    ∃ st, make_tree folders = .ok st ∧
      ∀ f ∈ folders,
        aget (nodeMap st (parentCode f)) f.id = some f.id ∧
        ((nodeMap st (parentCode f)).map Prod.fst).Nodup ∧
        ∀ n, n ≠ parentCode f → aget (nodeMap st n) f.id = none := by
  obtain ⟨st, hgo, hchar, hndmap⟩ :=
    makeTreeGo_spec (folders.foldl (fun m f => aset m f.id f) []) folders
      ⟨[], []⟩
      (fun f hf p hp => aget_foldl_aset_isSome folders [] p
        (Or.inl (hcl f hf p hp)))
  refine ⟨st, hgo, ?_⟩
  intro f hf
  refine ⟨?_, ?_, ?_⟩
  · rw [hchar (parentCode f) f.id, if_pos ⟨f, hf, rfl, rfl⟩]
  · refine hndmap ?_ (parentCode f)
    intro n
    cases n <;> simp [nodeMap, aget]
  · intro n hn
    rw [hchar n f.id, if_neg ?_]
    · cases n with
      | none => rfl
      | some p => simp [nodeMap, aget]
    · rintro ⟨g, hg, hgid, hgp⟩
      have hgf : g = f := by
        have hinj := List.inj_on_of_nodup_map hnd
        exact hinj hg hf hgid
      rw [hgf] at hgp
      exact hn hgp.symm

theorem c6_tree_parent_witness :
    ∃ st, make_tree [⟨"A", none⟩, ⟨"B", some "A"⟩] = .ok st ∧
      ∀ f ∈ [(⟨"A", none⟩ : Folder), ⟨"B", some "A"⟩],
        aget (nodeMap st (parentCode f)) f.id = some f.id ∧
        ((nodeMap st (parentCode f)).map Prod.fst).Nodup ∧
        ∀ n, n ≠ parentCode f → aget (nodeMap st n) f.id = none := by
  refine c6_tree_parent [⟨"A", none⟩, ⟨"B", some "A"⟩] (by decide) ?_
  rintro f hf p hp
  fin_cases hf
  · exact Option.noConfusion hp
  · injection hp with h
    subst h
    decide

/-- C2 amended: at a position where both revision tokens are present
but differ, or where the snapshot record lacks one while the freshly
fetched server item has one, the item is skipped with a positional
diagnostic carrying its title, it is not written, and the loop
continues with the next position (first conjunct); but when the
freshly-fetched server item itself lacks a revision token, the
diagnostic line raises an uncaught KeyError and the whole apply aborts
at that position instead of skipping (second conjunct). -/
theorem c2_conflict_skip (c : Client) (ed : List (String × ESpec)) (w : Dict)
    (ws : List Dict) (rs : List Val) (i : Nat) (tr : Trace) (wid : Val)
    (pd : Dict) :
    (∀ (rd : Dict) (rv tv : Val),
      aget w "id" = some wid →
      aget (c.server wid) "properties" = some (.dict pd) →
      aget pd "revision" = some rv →
      aget pd "title" = some tv →
      ((aget rd "properties" = none) ∨
        (∃ rpd, aget rd "properties" = some (.dict rpd) ∧
          ((aget rpd "revision" = none) ∨
            (∃ lv, aget rpd "revision" = some lv ∧ Val.beq rv lv = false)))) →
      runApply c ed (w :: ws) (.dict rd :: rs) i tr =
        runApply c ed ws rs (i + 1)
          { tr with fetches := tr.fetches ++ [wid],
                    skipped := tr.skipped ++ [.revConflict (i + 1) tv] }) ∧
    (∀ r : Val,
      aget w "id" = some wid →
      aget (c.server wid) "properties" = some (.dict pd) →
      aget pd "revision" = none →
      runApply c ed (w :: ws) (r :: rs) i tr =
        ({ tr with fetches := tr.fetches ++ [wid] },
         .error (.pyErr .keyError))) := by
  constructor
  · intro rd rv tv hwid hprops hrev htitle hloc
    have hrg : revGet (.dict (c.server wid)) = .ok rv := by
      simp [revGet, subscr, hprops, hrev]
    have htg : titleGet (c.server wid) = .ok tv := by
      simp [titleGet, subscr, hprops, htitle]
    have hrm : rev_match (.dict (c.server wid)) (.dict rd) = .ok false := by
      rcases hloc with hnone | ⟨rpd, hrpd, hin⟩
      · have hr2 : revGet (.dict rd) = .error .keyError := by
          simp [revGet, subscr, hnone]
        unfold rev_match
        simp only [hrg, hr2]
      · rcases hin with hnorev | ⟨lv, hlv, hne⟩
        · have hr2 : revGet (.dict rd) = .error .keyError := by
            simp [revGet, subscr, hrpd, hnorev]
          unfold rev_match
          simp only [hrg, hr2]
        · have hr2 : revGet (.dict rd) = .ok lv := by
            simp [revGet, subscr, hrpd, hlv]
          unfold rev_match
          simp only [hrg, hr2, hne]
    have hlg : ∃ o, localRevGet (.dict rd) = .ok o := by
      rcases hloc with hnone | ⟨rpd, hrpd, hin⟩
      · exact ⟨none, by simp [localRevGet, hnone]⟩
      · exact ⟨aget rpd "revision", by simp [localRevGet, hrpd]⟩
    obtain ⟨o, hlg⟩ := hlg
    simp [runApply, processItem, hwid, hrm, hrg, hlg, htg]
  · intro r hwid hprops hnorev
    have hrg : revGet (.dict (c.server wid)) = .error .keyError := by
      simp [revGet, subscr, hprops, hnorev]
    have hrm : rev_match (.dict (c.server wid)) r = .ok false := by
      unfold rev_match
      simp only [hrg]
    simp [runApply, processItem, hwid, hrm, hrg]

/-- A server on which the item id0 lacks a revision token while id1
has one; every write is accepted. -/
def c2Client : Client :=
  ⟨fun v =>
    if Val.beq v (Val.prim "id0") then
      [("id", Val.prim "id0"),
       ("properties", Val.dict [("title", Val.prim "one")])]
    else
      [("id", Val.prim "id1"),
       ("properties", Val.dict [("revision", Val.prim "r1"),
                                ("title", Val.prim "two")])],
   fun _ => true⟩

/-- A snapshot matching the two items of c2Client, with revision rX
recorded for id0 and the matching revision r1 for id1. -/
def c2Snap : Val :=
  .list
    [.dict [("id", Val.prim "id0"),
            ("properties", Val.dict [("revision", Val.prim "rX"),
                                     ("title", Val.prim "one")])],
     .dict [("id", Val.prim "id1"),
            ("properties", Val.dict [("revision", Val.prim "r1"),
                                     ("title", Val.prim "two")])]]

/-- C2 counterexample: the freshly-fetched server item at position 0
lacks a revision token, which the claim says is a skip-and-continue
conflict.  Instead the whole apply aborts with an uncaught KeyError:
nothing is skipped, and the item at position 1, whose revision matches,
is never fetched, never written and never reported as updated. -/
theorem c2_counterexample :
    load_for_edit c2Client
        [[("id", Val.prim "id0")], [("id", Val.prim "id1")]] c2Snap =
      (⟨[Val.prim "id0"], [], [], []⟩, .error (.pyErr .keyError)) := rfl

/-- A server whose sole item id0 carries revision r0; every write is
accepted. -/
def c2wClient : Client :=
  ⟨fun _ =>
    [("id", Val.prim "id0"),
     ("properties", Val.dict [("revision", Val.prim "r0"),
                              ("title", Val.prim "one")])],
   fun _ => true⟩

theorem c2_conflict_skip_witness :
    runApply c2wClient editableSchema [[("id", Val.prim "id0")]]
        [.dict [("id", Val.prim "id0"),
                ("properties", Val.dict [("revision", Val.prim "rX"),
                                         ("title", Val.prim "one")])]]
        0 Trace.init =
      runApply c2wClient editableSchema [] [] 1
        { Trace.init with fetches := [Val.prim "id0"],
                          skipped := [.revConflict 1 (Val.prim "one")] } ∧
    runApply c2Client editableSchema [[("id", Val.prim "id0")]]
        [.dict [("id", Val.prim "id0"),
                ("properties", Val.dict [("revision", Val.prim "rX"),
                                         ("title", Val.prim "one")])]]
        0 Trace.init =
      ({ Trace.init with fetches := [Val.prim "id0"] },
       .error (.pyErr .keyError)) := by
  constructor
  · exact (c2_conflict_skip c2wClient editableSchema _ [] [] 0 Trace.init
      (Val.prim "id0")
      [("revision", Val.prim "r0"), ("title", Val.prim "one")]).1
      [("id", Val.prim "id0"),
       ("properties", Val.dict [("revision", Val.prim "rX"),
                                ("title", Val.prim "one")])]
      (Val.prim "r0") (Val.prim "one") rfl rfl rfl rfl
      (Or.inr ⟨[("revision", Val.prim "rX"), ("title", Val.prim "one")],
        rfl, Or.inr ⟨Val.prim "rX", rfl, rfl⟩⟩)
  · exact (c2_conflict_skip c2Client editableSchema _ [] [] 0 Trace.init
      (Val.prim "id0") [("title", Val.prim "one")]).2
      (.dict [("id", Val.prim "id0"),
              ("properties", Val.dict [("revision", Val.prim "rX"),
                                       ("title", Val.prim "one")])])
      rfl rfl rfl

/-- The fetched-item shape the schema loop relies on: every
mapping-subset editable field is present as a mapping. -/
def WptOk (ed : List (String × ESpec)) (wpt : Dict) : Prop :=
  ∀ tk ks, aget ed tk = some (.subset ks) →
    ∃ inner, aget wpt tk = some (.dict inner)

/-- A snapshot-record entry the schema loop passes without a fatal
error: its key is declared, and for a mapping-subset field its value is
a mapping carrying only declared nested keys. -/
def entryCleanB (ed : List (String × ESpec)) (e : String × Val) : Bool :=
  match aget ed e.1 with
  | none => false
  | some .whole => true
  | some (.subset ks) =>
    match e.2 with
    | .dict items => items.all fun q => ks.contains q.1
    | _ => false

theorem applySubkeys_ok (tk : String) (ks : List String) :
    ∀ (items : List (String × Val)) (wpt inner : Dict),
    aget wpt tk = some (.dict inner) →
    (∀ q ∈ items, ks.contains q.1 = true) →
    ∃ w', applySubkeys tk ks wpt items = .ok w' ∧
      (∃ inner', aget w' tk = some (.dict inner')) ∧
      (∀ tk', tk' ≠ tk → aget w' tk' = aget wpt tk') := by
  intro items
  induction items with
  | nil =>
    intro wpt inner hw _
    exact ⟨wpt, rfl, ⟨inner, hw⟩, fun _ _ => rfl⟩
  | cons q rest ih =>
    intro wpt inner hw hin
    obtain ⟨k, v⟩ := q
    have hk : ks.contains k = true := hin (k, v) (List.mem_cons_self _ _)
    have hset : setNested wpt tk k v =
        .ok (aset wpt tk (.dict (aset inner k v))) := by
      simp [setNested, hw]
    obtain ⟨w', hrun, hfield, hframe⟩ :=
      ih (aset wpt tk (.dict (aset inner k v))) (aset inner k v)
        (aget_aset_self _ _ _)
        (fun q hq => hin q (List.mem_cons_of_mem _ hq))
    have hkmem : k ∈ ks := by simpa using hk
    refine ⟨w', ?_, hfield, ?_⟩
    · simp [applySubkeys, hkmem, hset, hrun]
    · intro tk' hne
      rw [hframe tk' hne, aget_aset_ne _ _ _ _ hne]

theorem applySchema_clean_step (ed : List (String × ESpec))
    (e : String × Val) (rest : List (String × Val)) (wpt : Dict)
    (hc : entryCleanB ed e = true) (hw : WptOk ed wpt) :
    ∃ wpt', applySchema ed wpt (e :: rest) = applySchema ed wpt' rest ∧
      WptOk ed wpt' := by
  obtain ⟨tk, v⟩ := e
  cases hed : aget ed tk with
  | none => simp [entryCleanB, hed] at hc
  | some sp =>
    cases sp with
    | whole => exact ⟨wpt, by simp [applySchema, hed], hw⟩
    | subset ks =>
      cases v with
      | prim s => simp [entryCleanB, hed] at hc
      | list l => simp [entryCleanB, hed] at hc
      | dict items =>
        have hin : ∀ q ∈ items, ks.contains q.1 = true := by
          simpa [entryCleanB, hed, List.all_eq_true] using hc
        obtain ⟨inner, hwtk⟩ := hw tk ks hed
        obtain ⟨w', hrun, hfield, hframe⟩ :=
          applySubkeys_ok tk ks items wpt inner hwtk hin
        refine ⟨w', by simp [applySchema, hed, hrun], ?_⟩
        intro tk2 ks2 hed2
        by_cases he : tk2 = tk
        · subst he
          exact hfield
        · obtain ⟨inner2, h2⟩ := hw tk2 ks2 hed2
          exact ⟨inner2, by rw [hframe tk2 he]; exact h2⟩

theorem applySchema_bad_key (ed : List (String × ESpec)) (k : String)
    (v : Val) (hbad : aget ed k = none) :
    ∀ (pre : List (String × Val)) (wpt : Dict) (post : List (String × Val)),
    (∀ e ∈ pre, entryCleanB ed e = true) → WptOk ed wpt →
    applySchema ed wpt (pre ++ (k, v) :: post) = .error (.invalidKey k) := by
  intro pre
  induction pre with
  | nil =>
    intro wpt post _ _
    simp [applySchema, hbad]
  | cons e pre' ih =>
    intro wpt post hclean hw
    obtain ⟨wpt', hstep, hw'⟩ :=
      applySchema_clean_step ed e (pre' ++ (k, v) :: post) wpt
        (hclean e (List.mem_cons_self _ _)) hw
    rw [List.cons_append, hstep]
    exact ih wpt' post (fun e' he' => hclean e' (List.mem_cons_of_mem _ he'))
      hw'

theorem applySubkeys_bad (tk : String) (ks : List String) (k2 : String)
    (v2 : Val) (hk2 : ks.contains k2 = false) :
    ∀ (ipre : List (String × Val)) (wpt inner : Dict)
      (ipost : List (String × Val)),
    aget wpt tk = some (.dict inner) →
    (∀ q ∈ ipre, ks.contains q.1 = true) →
    applySubkeys tk ks wpt (ipre ++ (k2, v2) :: ipost) =
      .error (.invalidSubKey tk k2) := by
  have hk2mem : ¬ (k2 ∈ ks) := by simpa using hk2
  intro ipre
  induction ipre with
  | nil =>
    intro wpt inner ipost _ _
    simp [applySubkeys, hk2mem]
  | cons q rest ih =>
    intro wpt inner ipost hw hin
    obtain ⟨k, v⟩ := q
    have hkmem : k ∈ ks := by
      simpa using hin (k, v) (List.mem_cons_self _ _)
    have hset : setNested wpt tk k v =
        .ok (aset wpt tk (.dict (aset inner k v))) := by
      simp [setNested, hw]
    have hrec := ih (aset wpt tk (.dict (aset inner k v))) (aset inner k v)
      ipost (aget_aset_self _ _ _)
      (fun q hq => hin q (List.mem_cons_of_mem _ hq))
    simp [applySubkeys, hkmem, hset, hrec]

theorem applySchema_bad_subkey (ed : List (String × ESpec)) (tk : String)
    (ks : List String) (htk : aget ed tk = some (.subset ks)) (k2 : String)
    (v2 : Val) (hk2 : ks.contains k2 = false) :
    ∀ (pre : List (String × Val)) (wpt : Dict)
      (ipre ipost post : List (String × Val)),
    (∀ e ∈ pre, entryCleanB ed e = true) →
    (∀ q ∈ ipre, ks.contains q.1 = true) →
    WptOk ed wpt →
    applySchema ed wpt
        (pre ++ (tk, .dict (ipre ++ (k2, v2) :: ipost)) :: post) =
      .error (.invalidSubKey tk k2) := by
  intro pre
  induction pre with
  | nil =>
    intro wpt ipre ipost post _ hin hw
    obtain ⟨inner, hwtk⟩ := hw tk ks htk
    have hsub := applySubkeys_bad tk ks k2 v2 hk2 ipre wpt inner ipost hwtk hin
    simp [applySchema, htk, hsub]
  | cons e pre' ih =>
    intro wpt ipre ipost post hclean hin hw
    obtain ⟨wpt', hstep, hw'⟩ :=
      applySchema_clean_step ed e _ wpt (hclean e (List.mem_cons_self _ _)) hw
    rw [List.cons_append, hstep]
    exact ih wpt' ipre ipost post
      (fun e' he' => hclean e' (List.mem_cons_of_mem _ he')) hin hw'

/-- C1 amended: schema validation is per item, interleaved with the
writes.  First conjunct: when the loop reaches a record that passes the
revision and identity checks and whose first undeclared top-level key
is k (the entries before it being clean), the apply aborts with the
SchemaViolation for k during that position, the violating item and
every later item are not fetched or written, and whatever the trace
already holds — the writes and success reports of earlier positions —
is preserved unchanged.  Second conjunct: the same abort for the first
undeclared nested key k2 inside a mapping-typed editable field tk.
Third and fourth conjuncts: a record skipped by the identity check or
by the revision check is never schema-validated — whatever undeclared
keys it contains, the loop records the skip diagnostic and continues
with the next position. -/
theorem c1_schema_abort (c : Client) (w : Dict) (ws : List Dict)
    (rs : List Val) (i : Nat) (tr : Trace) (wid sid : Val) :
    (∀ (rid : Val) (pre post : List (String × Val)) (k : String) (v : Val),
      aget w "id" = some wid →
      rev_match (.dict (c.server wid)) (.dict (pre ++ (k, v) :: post)) =
        .ok true →
      aget (c.server wid) "id" = some sid →
      aget (pre ++ (k, v) :: post) "id" = some rid →
      Val.beq sid rid = true →
      WptOk editableSchema (c.server wid) →
      (∀ e ∈ pre, entryCleanB editableSchema e = true) →
      aget editableSchema k = none →
      runApply c editableSchema (w :: ws)
          (.dict (pre ++ (k, v) :: post) :: rs) i tr =
        ({ tr with fetches := tr.fetches ++ [wid] },
         .error (.invalidKey k))) ∧
    (∀ (rid : Val) (pre post ipre ipost : List (String × Val))
        (tk k2 : String) (ks : List String) (v2 : Val),
      aget w "id" = some wid →
      rev_match (.dict (c.server wid))
        (.dict (pre ++ (tk, .dict (ipre ++ (k2, v2) :: ipost)) :: post)) =
        .ok true →
      aget (c.server wid) "id" = some sid →
      aget (pre ++ (tk, .dict (ipre ++ (k2, v2) :: ipost)) :: post) "id" =
        some rid →
      Val.beq sid rid = true →
      WptOk editableSchema (c.server wid) →
      (∀ e ∈ pre, entryCleanB editableSchema e = true) →
      aget editableSchema tk = some (.subset ks) →
      (∀ q ∈ ipre, ks.contains q.1 = true) →
      ks.contains k2 = false →
      runApply c editableSchema (w :: ws)
          (.dict (pre ++ (tk, .dict (ipre ++ (k2, v2) :: ipost)) :: post)
            :: rs) i tr =
        ({ tr with fetches := tr.fetches ++ [wid] },
         .error (.invalidSubKey tk k2))) ∧
    (∀ (ed : List (String × ESpec)) (rd pd : Dict) (tv : Val),
      aget w "id" = some wid →
      rev_match (.dict (c.server wid)) (.dict rd) = .ok true →
      aget (c.server wid) "id" = some sid →
      ((aget rd "id" = none) ∨
        (∃ x, aget rd "id" = some x ∧ Val.beq sid x = false)) →
      aget (c.server wid) "properties" = some (.dict pd) →
      aget pd "title" = some tv →
      runApply c ed (w :: ws) (.dict rd :: rs) i tr =
        runApply c ed ws rs (i + 1)
          { tr with fetches := tr.fetches ++ [wid],
                    skipped := tr.skipped ++ [.idMismatch i tv] }) ∧
    (∀ (ed : List (String × ESpec)) (rd pd : Dict) (rv tv : Val),
      aget w "id" = some wid →
      aget (c.server wid) "properties" = some (.dict pd) →
      aget pd "revision" = some rv →
      aget pd "title" = some tv →
      ((aget rd "properties" = none) ∨
        (∃ rpd, aget rd "properties" = some (.dict rpd) ∧
          ((aget rpd "revision" = none) ∨
            (∃ lv, aget rpd "revision" = some lv ∧ Val.beq rv lv = false)))) →
      runApply c ed (w :: ws) (.dict rd :: rs) i tr =
        runApply c ed ws rs (i + 1)
          { tr with fetches := tr.fetches ++ [wid],
                    skipped := tr.skipped ++ [.revConflict (i + 1) tv] }) := by
  refine ⟨?_, ?_, ?_, ?_⟩
  · intro rid pre post k v hwid hrev hsid hrid hbeq hwok hclean hbad
    have hsch := applySchema_bad_key editableSchema k v hbad pre
      (c.server wid) post hclean hwok
    simp [runApply, processItem, hwid, hrev, hsid, hrid, hbeq, hsch, pyGet]
  · intro rid pre post ipre ipost tk k2 ks v2 hwid hrev hsid hrid hbeq hwok
      hclean htk hin hk2
    have hsch := applySchema_bad_subkey editableSchema tk ks htk k2 v2 hk2
      pre (c.server wid) ipre ipost post hclean hin hwok
    simp [runApply, processItem, hwid, hrev, hsid, hrid, hbeq, hsch, pyGet]
  · intro ed rd pd tv hwid hrev hsid hne hprops htitle
    have htg : titleGet (c.server wid) = .ok tv := by
      simp [titleGet, subscr, hprops, htitle]
    rcases hne with hnone | ⟨x, hx, hbx⟩
    · simp [runApply, processItem, hwid, hrev, hsid, hnone, pyGet, htg]
    · simp [runApply, processItem, hwid, hrev, hsid, hx, hbx, pyGet, htg]
  · intro ed rd pd rv tv hwid hprops hrev htitle hloc
    have hrg : revGet (.dict (c.server wid)) = .ok rv := by
      simp [revGet, subscr, hprops, hrev]
    have htg : titleGet (c.server wid) = .ok tv := by
      simp [titleGet, subscr, hprops, htitle]
    have hrm : rev_match (.dict (c.server wid)) (.dict rd) = .ok false := by
      rcases hloc with hnone | ⟨rpd, hrpd, hin⟩
      · have hr2 : revGet (.dict rd) = .error .keyError := by
          simp [revGet, subscr, hnone]
        unfold rev_match
        simp only [hrg, hr2]
      · rcases hin with hnorev | ⟨lv, hlv, hne2⟩
        · have hr2 : revGet (.dict rd) = .error .keyError := by
            simp [revGet, subscr, hrpd, hnorev]
          unfold rev_match
          simp only [hrg, hr2]
        · have hr2 : revGet (.dict rd) = .ok lv := by
            simp [revGet, subscr, hrpd, hlv]
          unfold rev_match
          simp only [hrg, hr2, hne2]
    have hlg : ∃ o, localRevGet (.dict rd) = .ok o := by
      rcases hloc with hnone | ⟨rpd, hrpd, hin⟩
      · exact ⟨none, by simp [localRevGet, hnone]⟩
      · exact ⟨aget rpd "revision", by simp [localRevGet, hrpd]⟩
    obtain ⟨o, hlg⟩ := hlg
    simp [runApply, processItem, hwid, hrm, hrg, hlg, htg]

/-- A server with two items: id0 with revision r0 and title one, id1
with revision r1 and title two; every write is accepted. -/
def c1Client : Client :=
  ⟨fun v =>
    if Val.beq v (Val.prim "id0") then
      [("id", Val.prim "id0"),
       ("properties", Val.dict [("title", Val.prim "one"),
                                ("revision", Val.prim "r0")])]
    else
      [("id", Val.prim "id1"),
       ("properties", Val.dict [("title", Val.prim "two"),
                                ("revision", Val.prim "r1")])],
   fun _ => true⟩

/-- A correctly-sized snapshot whose first record is valid (it renames
id0) and whose second record carries the undeclared top-level key foo
after matching revision and id fields. -/
def c1Snap : Val :=
  .list
    [.dict [("id", Val.prim "id0"),
            ("properties", Val.dict [("revision", Val.prim "r0"),
                                     ("title", Val.prim "one-renamed")])],
     .dict [("id", Val.prim "id1"),
            ("properties", Val.dict [("revision", Val.prim "r1")]),
            ("foo", Val.prim "bar")]]

/-- C1 counterexample: the undeclared key foo sits in the record at
position 1, after a record at position 0 that passes validation.  The
apply does abort with the SchemaViolation for foo, but only after item
0 has already been written to the server and reported as updated — not
\"before any item is written\", and a partial success is reported. -/
theorem c1_counterexample :
    load_for_edit c1Client
        [[("id", Val.prim "id0")], [("id", Val.prim "id1")]] c1Snap =
      (⟨[Val.prim "id0", Val.prim "id1"],
        [[("id", Val.prim "id0"),
          ("properties", Val.dict [("title", Val.prim "one-renamed"),
                                   ("revision", Val.prim "r0")])]],
        [0], []⟩,
       .error (.invalidKey "foo")) := rfl

/-- A one-item server holding id1 with revision r1 and title two. -/
def c1bClient : Client :=
  ⟨fun _ =>
    [("id", Val.prim "id1"),
     ("properties", Val.dict [("title", Val.prim "two"),
                              ("revision", Val.prim "r1")])],
   fun _ => true⟩

theorem c1_schema_abort_witness :
    runApply c1bClient editableSchema [[("id", Val.prim "id1")]]
        [.dict [("id", Val.prim "id1"),
                ("properties", Val.dict [("revision", Val.prim "r1")]),
                ("foo", Val.prim "bar")]]
        0 Trace.init =
      ({ Trace.init with fetches := [Val.prim "id1"] },
       .error (.invalidKey "foo")) ∧
    runApply c1bClient editableSchema [[("id", Val.prim "id1")]]
        [.dict [("id", Val.prim "id1"),
                ("properties", Val.dict [("revision", Val.prim "r1"),
                                         ("bogus", Val.prim "x")])]]
        0 Trace.init =
      ({ Trace.init with fetches := [Val.prim "id1"] },
       .error (.invalidSubKey "properties" "bogus")) ∧
    runApply c1bClient editableSchema [[("id", Val.prim "id1")]]
        [.dict [("id", Val.prim "OTHER"),
                ("properties", Val.dict [("revision", Val.prim "r1")]),
                ("foo", Val.prim "bar")]]
        0 Trace.init =
      runApply c1bClient editableSchema [] [] 1
        { Trace.init with fetches := [Val.prim "id1"],
                          skipped := [.idMismatch 0 (Val.prim "two")] } ∧
    runApply c1bClient editableSchema [[("id", Val.prim "id1")]]
        [.dict [("id", Val.prim "id1"),
                ("properties", Val.dict [("revision", Val.prim "STALE")]),
                ("foo", Val.prim "bar")]]
        0 Trace.init =
      runApply c1bClient editableSchema [] [] 1
        { Trace.init with fetches := [Val.prim "id1"],
                          skipped := [.revConflict 1 (Val.prim "two")] } := by
  have hwok : WptOk editableSchema
      [("id", Val.prim "id1"),
       ("properties", Val.dict [("title", Val.prim "two"),
                                ("revision", Val.prim "r1")])] := by
    intro tk ks h
    simp only [editableSchema, aget] at h
    by_cases h1 : "id" = tk
    · rw [if_pos h1] at h
      cases h
    · rw [if_neg h1] at h
      by_cases h2 : "properties" = tk
      · rw [if_pos h2] at h
        refine ⟨[("title", Val.prim "two"), ("revision", Val.prim "r1")], ?_⟩
        rw [← h2]
        rfl
      · rw [if_neg h2] at h
        cases h
  refine ⟨?_, ?_, ?_, ?_⟩
  · exact (c1_schema_abort c1bClient [("id", Val.prim "id1")] [] [] 0
      Trace.init (Val.prim "id1") (Val.prim "id1")).1 (Val.prim "id1")
      [("id", Val.prim "id1"),
       ("properties", Val.dict [("revision", Val.prim "r1")])]
      [] "foo" (Val.prim "bar")
      rfl rfl rfl rfl rfl hwok
      (by
        intro e he
        fin_cases he <;> rfl)
      (by decide)
  · exact (c1_schema_abort c1bClient [("id", Val.prim "id1")] [] [] 0
      Trace.init (Val.prim "id1") (Val.prim "id1")).2.1 (Val.prim "id1")
      [("id", Val.prim "id1")] [] [("revision", Val.prim "r1")] []
      "properties" "bogus"
      ["icon", "notes", "public", "title", "revision"] (Val.prim "x")
      rfl rfl rfl rfl rfl hwok
      (by
        intro e he
        fin_cases he
        rfl)
      rfl
      (by
        intro q hq
        fin_cases hq
        rfl)
      rfl
  · exact (c1_schema_abort c1bClient [("id", Val.prim "id1")] [] [] 0
      Trace.init (Val.prim "id1") (Val.prim "id1")).2.2.1 editableSchema
      [("id", Val.prim "OTHER"),
       ("properties", Val.dict [("revision", Val.prim "r1")]),
       ("foo", Val.prim "bar")]
      [("title", Val.prim "two"), ("revision", Val.prim "r1")]
      (Val.prim "two")
      rfl rfl rfl (Or.inr ⟨Val.prim "OTHER", rfl, rfl⟩) rfl rfl
  · exact (c1_schema_abort c1bClient [("id", Val.prim "id1")] [] [] 0
      Trace.init (Val.prim "id1") (Val.prim "id1")).2.2.2 editableSchema
      [("id", Val.prim "id1"),
       ("properties", Val.dict [("revision", Val.prim "STALE")]),
       ("foo", Val.prim "bar")]
      [("title", Val.prim "two"), ("revision", Val.prim "r1")]
      (Val.prim "r1") (Val.prim "two")
      rfl rfl rfl rfl
      (Or.inr ⟨[("revision", Val.prim "STALE")], rfl,
        Or.inr ⟨Val.prim "STALE", rfl, rfl⟩⟩)

end GaiaSpec
